import Mathlib

/-!
A shallow embedding of `release.py`, a release-packaging script for
smart-contract projects.  The script locates contract source files,
resolves their compiled artifacts from tool-specific build directories
(ape or foundry conventions), assembles a release manifest and writes it
to a fixed path.

Python values that can come out of `json.load` are modelled by the
inductive type `Json` below (JSON null and Python `None` coincide under
`json.load`, so one constructor `Json.null` stands for both).  Fallible
Python code (uncaught exceptions) is modelled with `Except Unit`.
The filesystem the script consults is modelled by the structure `FS`.
-/

set_option autoImplicit false

namespace Release

/-- A JSON value as produced by Python's `json.load`; `null` also stands
for Python `None` since `json.load` maps JSON null to `None`. -/
inductive Json where
  | null
  | bool (b : Bool)
  | num (n : Int)
  | str (s : String)
  | arr (elems : List Json)
  | obj (entries : List (String × Json))

/-- Python truthiness of a `json.load`-produced value: `None`/`False`/`0`
and empty string/list/dict are falsy, everything else is truthy. -/
def truthy : Json → Bool
  | .null => false
  | .bool b => b
  | .num n => n != 0
  | .str s => s != ""
  | .arr elems => !elems.isEmpty
  | .obj entries => !entries.isEmpty

/-- Whether Python slicing `v[a:b]` succeeds on the value: it does for
strings and lists, and raises `TypeError` otherwise. -/
def sliceable : Json → Bool
  | .str _ => true
  | .arr _ => true
  | _ => false

/-- Python's `v == '0x'` on a `json.load`-produced value: true exactly for
the string `"0x"`. -/
def isStr0x : Json → Bool
  | .str s => s = "0x"
  | _ => false

/-- Lookup in a JSON object as Python's `dict` built by `json.load` does:
a duplicated key keeps the LAST occurrence. -/
def objLookup (k : String) : List (String × Json) → Option Json
  | [] => none
  | kv :: rest =>
    match objLookup k rest with
    | some v => some v
    | none => if k = kv.1 then some kv.2 else none

/-- Python's `value.get(key, default)`: succeeds when the value is a dict,
raises `AttributeError` (modelled as `.error ()`) otherwise. -/
def dictGet (j : Json) (k : String) (default : Json) : Except Unit Json :=
  match j with
  | .obj entries => .ok ((objLookup k entries).getD default)
  | _ => .error ()

/-- First-match association lookup (used for filesystem maps and for the
manifest dict, whose keys are kept unique by `dictInsert`). -/
def assocFind {α : Type} (k : String) : List (String × α) → Option α
  | [] => none
  | kv :: rest => if k = kv.1 then some kv.2 else assocFind k rest

/-- Python `d[k] = v` on a dict: overwrites the value in place when the key
exists (keeping its position), appends a new entry otherwise. -/
def dictInsert (m : List (String × Json)) (k : String) (v : Json) : List (String × Json) :=
  if m.any (fun kv => k = kv.1) then
    m.map (fun kv => if k = kv.1 then (k, v) else kv)
  else
    m ++ [(k, v)]

/-- Removes at most `fuel` left-to-right non-overlapping occurrences of
`pat` from the character list, like Python's `s.replace(pat, '')` when
`fuel` is at least the length of the list and `pat` is nonempty. -/
def removeSubAux (pat : List Char) : Nat → List Char → List Char
  | _, [] => []
  | 0, cs => cs
  | Nat.succ n, c :: cs =>
    if pat.isPrefixOf (c :: cs) then
      removeSubAux pat n (List.drop (pat.length - 1) cs)
    else
      c :: removeSubAux pat n cs

/-- Python's `s.replace(pat, '')` for a nonempty `pat`: removes every
left-to-right non-overlapping occurrence of `pat` from `s`. -/
def removeSub (s pat : String) : String :=
  String.mk (removeSubAux pat.data s.data.length s.data)

/-- Python's `s.endswith(suffix)`. -/
def strEndsWith (s suffix : String) : Bool :=
  List.isSuffixOf suffix.data s.data

/-- `contract_name.replace(".sol", "").replace(".vy", "")` from
`get_ape_artifacts`. -/
def apeStrip (name : String) : String :=
  removeSub (removeSub name ".sol") ".vy"

/-- The ape artifact path `os.path.join('./.build', f"{name}.json")`. -/
def apePath (name : String) : String :=
  "./.build/" ++ apeStrip name ++ ".json"

/-- `contract_name.replace(".sol", "")` from `get_foundry_artifacts`. -/
def foundryBase (name : String) : String :=
  removeSub name ".sol"

/-- The foundry artifact path
`os.path.join('./out', f"{name}.sol", f"{name}.json")`. -/
def foundryPath (name : String) : String :=
  "./out/" ++ foundryBase name ++ ".sol/" ++ foundryBase name ++ ".json"

/-- An existing artifact file on disk: either its content parses as JSON,
or it is not valid JSON (in which case `json.load` raises). -/
inductive ArtifactFile where
  | valid (content : Json)
  | invalid

mutual
/-- A directory on disk: the regular file names it holds directly, and its
named subdirectories, both in the order `os.walk` reports them. -/
inductive DirTree where
  | node (files : List String) (subs : SubList)
/-- A list of named subdirectories. -/
inductive SubList where
  | nil
  | cons (name : String) (tree : DirTree) (rest : SubList)
end

/-- The filesystem state the script interacts with:
marker files for project-type detection, the two candidate source roots
(`none` when the root does not exist), the build-output files by path,
the existing directories, and the files written by the script. -/
structure FS where
  apeYaml : Bool
  apeYml : Bool
  contractsTree : Option DirTree
  srcTree : Option DirTree
  artifacts : List (String × ArtifactFile)
  dirs : List String
  written : List (String × String)

/-- `os.path.exists` restricted to the artifact files of the model. -/
def lookupFile (fs : FS) (path : String) : Option ArtifactFile :=
  assocFind path fs.artifacts

/-- `detect_project_type`: returns `'ape'` when `ape-config.yaml` or
`ape-config.yml` exists, `'foundry'` otherwise. -/
def detect_project_type (fs : FS) : String :=
  if fs.apeYaml || fs.apeYml then "ape" else "foundry"

/-- `get_ape_artifacts`: strips the source extension, looks the artifact
up at `./.build/<name>.json`, returns `(None, None)` when the file is
missing, raises when it is not valid JSON, extracts
`deploymentBytecode.bytecode` and `abi`, prints slices of both (raising
`TypeError` on non-sliceable values), and normalizes an empty or `"0x"`
bytecode to `None`, returning the abi unchanged. -/
def get_ape_artifacts (fs : FS) (contract_name : String) : Except Unit (Json × Json) :=
  match lookupFile fs (apePath contract_name) with
  | none => .ok (Json.null, Json.null)
  | some .invalid => .error ()
  | some (.valid artifact) =>
    match dictGet artifact "deploymentBytecode" (Json.obj []) with
    | .error e => .error e
    | .ok d1 =>
      match dictGet d1 "bytecode" (Json.str "") with
      | .error e => .error e
      | .ok bytecode0 =>
        match dictGet artifact "abi" (Json.arr []) with
        | .error e => .error e
        | .ok abi =>
          if !sliceable abi then .error ()
          else if !sliceable bytecode0 then .error ()
          else if truthy bytecode0 && !isStr0x bytecode0 then .ok (bytecode0, abi)
          else .ok (Json.null, abi)

/-- `get_foundry_artifacts`: strips `.sol`, looks the artifact up at
`./out/<name>.sol/<name>.json`, returns `(None, None)` when the file is
missing, raises when it is not valid JSON, extracts `bytecode.object`,
returns `(None, None)` when it equals `"0x"`, extracts `abi`, prints a
slice of a truthy bytecode (raising `TypeError` when it is not
sliceable), and returns the pair. -/
def get_foundry_artifacts (fs : FS) (contract_name : String) : Except Unit (Json × Json) :=
  match lookupFile fs (foundryPath contract_name) with
  | none => .ok (Json.null, Json.null)
  | some .invalid => .error ()
  | some (.valid artifact) =>
    match dictGet artifact "bytecode" (Json.obj []) with
    | .error e => .error e
    | .ok b1 =>
      match dictGet b1 "object" Json.null with
      | .error e => .error e
      | .ok bytecode =>
        if isStr0x bytecode then .ok (Json.null, Json.null)
        else
          match dictGet artifact "abi" (Json.arr []) with
          | .error e => .error e
          | .ok abi =>
            if truthy bytecode && !sliceable bytecode then .error ()
            else .ok (bytecode, abi)

/-- The `directories_to_exclude` list of `get_contract_files`, containing
the normalized paths pruned during the walk. -/
def directories_to_exclude : List String :=
  ["contracts/.cache", "contracts/interfaces", "contracts/test", "contracts/Mocks",
   "src/.cache", "src/interfaces", "src/test", "src/mocks"]

/-- `file.endswith('.sol') or file.endswith('.vy')`. -/
def goodExt (f : String) : Bool :=
  strEndsWith f ".sol" || strEndsWith f ".vy"

mutual
/-- The `os.walk` loop of `get_contract_files` over one root: collects the
`.sol`/`.vy` file names of the current directory, then walks the
subdirectories in order, pruning those whose normalized path
(`os.path.normpath(os.path.join(normalized_root, d))`, here the
accumulated `p ++ "/" ++ d` since the roots are normalized and the walk
only appends plain directory names) lies in the exclusion list. -/
def walkCollect (excl : List String) (p : String) : DirTree → List String
  | .node files subs => files.filter goodExt ++ walkSubs excl p subs
/-- The subdirectory part of the walk. -/
def walkSubs (excl : List String) (p : String) : SubList → List String
  | .nil => []
  | .cons d t rest =>
    (if excl.contains (p ++ "/" ++ d) then [] else walkCollect excl (p ++ "/" ++ d) t)
      ++ walkSubs excl p rest
end

/-- `get_contract_files`: walks the roots `'./contracts'` and `'./src'`
(whose normalized paths are `"contracts"` and `"src"`), silently skipping
a root that does not exist, and returns the collected basenames. -/
def get_contract_files (fs : FS) : List String :=
  (match fs.contractsTree with
   | none => []
   | some t => walkCollect directories_to_exclude "contracts" t) ++
  (match fs.srcTree with
   | none => []
   | some t => walkCollect directories_to_exclude "src" t)

/-- The branch of the processing loop in `build_release_data`: the foundry
resolver when the detected type is `'foundry'`, the ape resolver
otherwise. -/
def resolveArtifact (fs : FS) (project_type name : String) : Except Unit (Json × Json) :=
  if project_type = "foundry" then get_foundry_artifacts fs name
  else get_ape_artifacts fs name

/-- The contract-processing loop of `build_release_data`: resolves each
located file and inserts `{"bytecode": ..., "abi": ...}` into the
contracts dict when both values are truthy; a resolver exception aborts
the whole loop. -/
def processContracts (fs : FS) (project_type : String) :
    List String → List (String × Json) → Except Unit (List (String × Json))
  | [], acc => .ok acc
  | f :: rest, acc =>
    match resolveArtifact fs project_type f with
    | .error e => .error e
    | .ok (bytecode, abi) =>
      processContracts fs project_type rest
        (if truthy bytecode && truthy abi then
           dictInsert acc f (Json.obj [("bytecode", bytecode), ("abi", abi)])
         else acc)

/-- `os.path.dirname` for POSIX paths: the part of the path up to the last
slash, with trailing slashes stripped unless the head is all slashes. -/
def dirname (p : String) : String :=
  let rev := p.data.reverse
  let headRev := rev.dropWhile (fun c => c ≠ '/')
  if headRev = [] then ""
  else if headRev.all (fun c => c = '/') then String.mk headRev.reverse
  else String.mk ((headRev.dropWhile (fun c => c = '/')).reverse)

/-- `os.path.exists` on a directory path; the empty string never exists. -/
def dirExists (fs : FS) (d : String) : Bool :=
  d != "" && fs.dirs.contains d

/-- `os.makedirs`: raises `FileNotFoundError` on the empty path, creates
the directory otherwise. -/
def makedirs (fs : FS) (d : String) : Except Unit FS :=
  if d = "" then .error ()
  else .ok { fs with dirs := d :: fs.dirs }

/-- `open(file_path, 'w')` followed by `file.write(data)`: replaces any
existing content at the path with exactly `data`. -/
def writeFile (fs : FS) (path content : String) : FS :=
  { fs with written := (path, content) :: fs.written.filter (fun e => e.1 ≠ path) }

/-- `save_to_file`: extracts the directory of the target path, creates it
when it does not exist, and writes the data. -/
def save_to_file (fs : FS) (file_path data : String) : Except Unit FS :=
  let directory := dirname file_path
  if dirExists fs directory then .ok (writeFile fs file_path data)
  else
    match makedirs fs directory with
    | .error e => .error e
    | .ok fs1 => .ok (writeFile fs1 file_path data)

/-- The fixed output path `RELEASE_DATA_FILE_PATH` of the script. -/
def RELEASE_DATA_FILE_PATH : String := "./release/release_data.json"

/-- `n` spaces. -/
def spaces : Nat → String
  | 0 => ""
  | n + 1 => " " ++ spaces n

/-- A lowercase hexadecimal digit. -/
def hexDigit (n : Nat) : Char :=
  if n < 10 then Char.ofNat (48 + n) else Char.ofNat (87 + n % 16)

/-- Four lowercase hexadecimal digits, as in Python's `\uXXXX` escapes. -/
def hex4 (n : Nat) : String :=
  String.mk [hexDigit (n / 4096 % 16), hexDigit (n / 256 % 16),
             hexDigit (n / 16 % 16), hexDigit (n % 16)]

/-- The escaping `json.dumps` (with its default `ensure_ascii=True`)
applies to one character of a string. -/
def escChar (c : Char) : String :=
  if c = '"' then "\\\""
  else if c = '\\' then "\\\\"
  else if c = '\n' then "\\n"
  else if c = '\t' then "\\t"
  else if c = '\r' then "\\r"
  else if c = Char.ofNat 8 then "\\b"
  else if c = Char.ofNat 12 then "\\f"
  else if 32 ≤ c.toNat && c.toNat ≤ 126 then String.singleton c
  else if c.toNat < 65536 then "\\u" ++ hex4 c.toNat
  else
    "\\u" ++ hex4 (55296 + (c.toNat - 65536) / 1024) ++
    "\\u" ++ hex4 (56320 + (c.toNat - 65536) % 1024)

/-- A JSON string literal as `json.dumps` renders it. -/
def dumpsStr (s : String) : String :=
  "\"" ++ (s.data.map escChar).foldl (fun a b => a ++ b) "" ++ "\""

mutual
/-- `json.dumps(v, indent=ind)` at current indentation `cur`: Python's
pretty printer with item separator `','`, key separator `': '`, each
element on its own line indented by `cur + ind`, and `[]`/`{}` (written
with escapes here) for empty containers. -/
def dumpsJson (ind cur : Nat) : Json → String
  | .null => "null"
  | .bool true => "true"
  | .bool false => "false"
  | .num n => toString n
  | .str s => dumpsStr s
  | .arr [] => "[]"
  | .arr (x :: xs) =>
    "[\n" ++ spaces (cur + ind) ++ dumpsJson ind (cur + ind) x ++
      dumpsArr ind (cur + ind) xs ++ "\n" ++ spaces cur ++ "]"
  | .obj [] => "\x7b\x7d"
  | .obj ((k, v) :: kvs) =>
    "\x7b\n" ++ spaces (cur + ind) ++ dumpsStr k ++ ": " ++ dumpsJson ind (cur + ind) v ++
      dumpsObj ind (cur + ind) kvs ++ "\n" ++ spaces cur ++ "\x7d"
/-- The remaining elements of a JSON array being dumped. -/
def dumpsArr (ind cur : Nat) : List Json → String
  | [] => ""
  | x :: xs => ",\n" ++ spaces cur ++ dumpsJson ind cur x ++ dumpsArr ind cur xs
/-- The remaining entries of a JSON object being dumped. -/
def dumpsObj (ind cur : Nat) : List (String × Json) → String
  | [] => ""
  | (k, v) :: kvs =>
    ",\n" ++ spaces cur ++ dumpsStr k ++ ": " ++ dumpsJson ind cur v ++ dumpsObj ind cur kvs
end

/-- The manifest dictionary `data` of `build_release_data`, with the
contracts mapping filled in by the processing loop. -/
def manifestJson (release : String) (now : Int) (contracts : List (String × Json)) : Json :=
  Json.obj [("releases", Json.obj [(release,
    Json.obj [("release_timestamp", Json.num now), ("contracts", Json.obj contracts)])])]

/-- `build_release_data`: builds the manifest skeleton with the release
label and the timestamp `int(time.time())` (passed in as `now`), locates
the contract files, detects the project type, runs the processing loop,
serializes the manifest with `json.dumps(data, indent=2)` and writes it
to `RELEASE_DATA_FILE_PATH`; an uncaught exception anywhere aborts the
run before the write. -/
def build_release_data (fs : FS) (now : Int) (release : String) : Except Unit FS :=
  match processContracts fs (detect_project_type fs) (get_contract_files fs) [] with
  | .error e => .error e
  | .ok m => save_to_file fs RELEASE_DATA_FILE_PATH (dumpsJson 2 0 (manifestJson release now m))

/-- Whether a run of `build_release_data` completes without an exception
AND leaves a file at the fixed output path. -/
def runWrites (fs : FS) (now : Int) (release : String) : Bool :=
  match build_release_data fs now release with
  | .error _ => false
  | .ok fs2 => (assocFind RELEASE_DATA_FILE_PATH fs2.written).isSome

mutual
/-- All files of a directory tree, each with the chain of subdirectory
names leading to it from the root (in walk order). -/
def filesOf : DirTree → List (List String × String)
  | .node files subs => files.map (fun f => ([], f)) ++ filesOfSubs subs
/-- The files contributed by a list of subdirectories. -/
def filesOfSubs : SubList → List (List String × String)
  | .nil => []
  | .cons d t rest =>
    (filesOf t).map (fun e => (d :: e.1, e.2)) ++ filesOfSubs rest
end

/-- Whether some directory along the chain `ds` below the normalized root
path `p` has its path in the exclusion list (so the walk would have
pruned it). -/
def excludedUnder (excl : List String) : String → List String → Bool
  | _, [] => false
  | p, d :: ds => excl.contains (p ++ "/" ++ d) || excludedUnder excl (p ++ "/" ++ d) ds

/-- The source tree of the model at a given normalized root name. -/
def treeAt (fs : FS) (root : String) : Option DirTree :=
  if root = "contracts" then fs.contractsTree
  else if root = "src" then fs.srcTree
  else none

/-- Whether the value of a JSON-object field, when present and itself an
object, has a given subfield that is absent or a string. -/
def nestedFieldIsStr (entries : List (String × Json)) (k1 k2 : String) : Bool :=
  match objLookup k1 entries with
  | some (.obj inner) =>
    match objLookup k2 inner with
    | some (.str _) => true
    | some _ => false
    | none => true
  | _ => true

/-- A well-formed artifact JSON, following the documented layout of the
build tools: `bytecode.object` and `deploymentBytecode.bytecode` are
strings when present, and `abi` is an array when present.  Values that
already make the script raise (non-object artifacts, non-object
intermediate fields) are unconstrained. -/
def wfArtifactJson : Json → Bool
  | .obj entries =>
    nestedFieldIsStr entries "bytecode" "object" &&
    nestedFieldIsStr entries "deploymentBytecode" "bytecode" &&
    (match objLookup "abi" entries with
     | some (.arr _) => true
     | some _ => false
     | none => true)
  | _ => true

/-- All parseable artifact files of the filesystem are well-formed. -/
def wellFormedFS (fs : FS) : Bool :=
  fs.artifacts.all (fun e =>
    match e.2 with
    | .valid j => wfArtifactJson j
    | .invalid => true)

/-- An empty filesystem: no marker files, no source roots, no artifacts,
no directories, nothing written. -/
def emptyFS : FS :=
  { apeYaml := false, apeYml := false, contractsTree := none, srcTree := none,
    artifacts := [], dirs := [], written := [] }

/-- A foundry-detected filesystem whose only contract source is a Vyper
file `Token.vy` under `./contracts`, with no build artifacts at all. -/
def fsC1 : FS :=
  { emptyFS with contractsTree := some (DirTree.node ["Token.vy"] SubList.nil) }

/-- One ABI entry used by the examples. -/
def exAbiEntry : Json :=
  Json.obj [("type", Json.str "function"), ("name", Json.str "totalAssets")]

/-- An ape-detected filesystem whose artifact for `Vault` has the
placeholder bytecode `"0x"` and a nonempty abi. -/
def fsC2 : FS :=
  { emptyFS with
    apeYaml := true,
    artifacts := [("./.build/Vault.json",
      ArtifactFile.valid (Json.obj
        [("deploymentBytecode", Json.obj [("bytecode", Json.str "0x")]),
         ("abi", Json.arr [exAbiEntry])]))] }

/-- A foundry-detected filesystem whose artifact for `Zero.sol` has the
placeholder bytecode `"0x"`. -/
def fsC2f : FS :=
  { emptyFS with
    artifacts := [("./out/Zero.sol/Zero.json",
      ArtifactFile.valid (Json.obj
        [("bytecode", Json.obj [("object", Json.str "0x")]),
         ("abi", Json.arr [exAbiEntry])]))] }

/-- A foundry-detected filesystem with one well-formed artifact for
`Vault.sol` holding a real bytecode and a nonempty abi. -/
def fsGood : FS :=
  { emptyFS with
    contractsTree := some (DirTree.node ["Vault.sol"] SubList.nil),
    artifacts := [("./out/Vault.sol/Vault.json",
      ArtifactFile.valid (Json.obj
        [("bytecode", Json.obj [("object", Json.str "0x6080604052")]),
         ("abi", Json.arr [exAbiEntry])]))] }

/-- An ape-detected filesystem that locates `Bad.vy` under `./src` and
holds an unparseable artifact file for it. -/
def fsC9 : FS :=
  { emptyFS with
    apeYaml := true,
    srcTree := some (DirTree.node ["Bad.vy"] SubList.nil),
    artifacts := [("./.build/Bad.json", ArtifactFile.invalid)] }

/-- A foundry-detected filesystem whose `./contracts` root holds `A.sol`
both at top level and inside a nested (non-excluded) subdirectory `core`,
with one resolvable artifact for it. -/
def fsC7 : FS :=
  { emptyFS with
    contractsTree := some (DirTree.node ["A.sol"]
      (SubList.cons "core" (DirTree.node ["A.sol"] SubList.nil) SubList.nil)),
    artifacts := [("./out/A.sol/A.json",
      ArtifactFile.valid (Json.obj
        [("bytecode", Json.obj [("object", Json.str "0xdeadbeef")]),
         ("abi", Json.arr [exAbiEntry])]))] }

/-- The contribution of one root directory to the locator's output. -/
def rootFiles (fs : FS) (r : String) : List String :=
  match treeAt fs r with
  | none => []
  | some t => walkCollect directories_to_exclude r t

/-! Helper lemmas about the Python dict operations. -/

theorem assocFind_mapReplace_ne (m : List (String × Json)) (k f : String) (v : Json)
    (h : k ≠ f) :
    assocFind k (m.map (fun kv => if f = kv.1 then (f, v) else kv)) = assocFind k m := by
  induction m with
  | nil => rfl
  | cons kv rest ih =>
    by_cases hf : f = kv.1
    · simp only [List.map_cons, if_pos hf, assocFind, if_neg h, if_neg (hf ▸ h)]
      exact ih
    · simp only [List.map_cons, if_neg hf, assocFind]
      split
      · rfl
      · exact ih

theorem assocFind_mapReplace_self (m : List (String × Json)) (f : String) (v : Json)
    (h : m.any (fun kv => f = kv.1) = true) :
    assocFind f (m.map (fun kv => if f = kv.1 then (f, v) else kv)) = some v := by
  induction m with
  | nil => simp at h
  | cons kv rest ih =>
    by_cases hf : f = kv.1
    · simp [List.map_cons, if_pos hf, assocFind]
    · simp only [List.map_cons, if_neg hf, assocFind, if_neg hf]
      apply ih
      simp only [List.any_cons, Bool.or_eq_true_iff] at h
      rcases h with h | h
      · exact absurd (of_decide_eq_true h) hf
      · exact h

theorem assocFind_append_single (m : List (String × Json)) (k f : String) (v : Json) :
    assocFind k (m ++ [(f, v)]) =
      match assocFind k m with
      | some w => some w
      | none => if k = f then some v else none := by
  induction m with
  | nil => rfl
  | cons kv rest ih =>
    rw [List.cons_append, assocFind, assocFind]
    split
    · rfl
    · exact ih

theorem assocFind_dictInsert_self (m : List (String × Json)) (k : String) (v : Json) :
    assocFind k (dictInsert m k v) = some v := by
  unfold dictInsert
  by_cases hany : m.any (fun kv => k = kv.1) = true
  · rw [if_pos hany]
    exact assocFind_mapReplace_self m k v hany
  · rw [if_neg hany, assocFind_append_single]
    have hnone : assocFind k m = none := by
      induction m with
      | nil => rfl
      | cons kv rest ih =>
        simp only [List.any_cons, Bool.or_eq_true_iff, not_or] at hany
        rw [assocFind, if_neg (fun h => hany.1 (decide_eq_true h))]
        exact ih (by simpa using hany.2)
    rw [hnone]
    simp

theorem assocFind_dictInsert_ne (m : List (String × Json)) (k f : String) (v : Json)
    (h : k ≠ f) : assocFind k (dictInsert m f v) = assocFind k m := by
  unfold dictInsert
  by_cases hany : m.any (fun kv => f = kv.1) = true
  · rw [if_pos hany]
    exact assocFind_mapReplace_ne m k f v h
  · rw [if_neg hany, assocFind_append_single]
    split
    · next heq => exact heq.symm
    · next heq => rw [if_neg h, heq]

theorem dictInsert_keys_present (m : List (String × Json)) (f : String) (v : Json)
    (h : m.any (fun kv => f = kv.1) = true) :
    (dictInsert m f v).map Prod.fst = m.map Prod.fst := by
  unfold dictInsert
  rw [if_pos h, List.map_map]
  apply List.map_congr_left
  intro kv _
  simp only [Function.comp_apply]
  split
  · next hf => exact hf
  · rfl

theorem dictInsert_keys_absent (m : List (String × Json)) (f : String) (v : Json)
    (h : ¬ m.any (fun kv => f = kv.1) = true) :
    (dictInsert m f v).map Prod.fst = m.map Prod.fst ++ [f] := by
  unfold dictInsert
  rw [if_neg h]
  simp

/-! Helper lemmas about the contract-processing loop. -/

theorem processContracts_cons_ok (fs : FS) (pt g : String) (rest : List String)
    (acc : List (String × Json)) (b a : Json)
    (h : resolveArtifact fs pt g = .ok (b, a)) :
    processContracts fs pt (g :: rest) acc =
      processContracts fs pt rest
        (if truthy b && truthy a then
           dictInsert acc g (Json.obj [("bytecode", b), ("abi", a)])
         else acc) := by
  rw [processContracts, h]

theorem processContracts_cons_error (fs : FS) (pt g : String) (rest : List String)
    (acc : List (String × Json))
    (h : resolveArtifact fs pt g = .error ()) :
    processContracts fs pt (g :: rest) acc = .error () := by
  rw [processContracts, h]

theorem processContracts_error_of_mem (fs : FS) (pt f : String) (files : List String)
    (acc : List (String × Json)) (hf : f ∈ files)
    (hres : resolveArtifact fs pt f = .error ()) :
    processContracts fs pt files acc = .error () := by
  induction files generalizing acc with
  | nil => cases hf
  | cons g rest ih =>
    rcases List.mem_cons.mp hf with hg | hg
    · subst hg
      exact processContracts_cons_error fs pt f rest acc hres
    · cases hgres : resolveArtifact fs pt g with
      | error e =>
        cases e
        exact processContracts_cons_error fs pt g rest acc hgres
      | ok p =>
        rcases p with ⟨b2, a2⟩
        rw [processContracts_cons_ok fs pt g rest acc b2 a2 hgres]
        exact ih _ hg

theorem processContracts_not_inserted (fs : FS) (pt f : String) (files : List String)
    (acc m : List (String × Json))
    (hres : ∀ b a, resolveArtifact fs pt f = .ok (b, a) → (truthy b && truthy a) = false)
    (hacc : assocFind f acc = none)
    (hrun : processContracts fs pt files acc = .ok m) :
    assocFind f m = none := by
  induction files generalizing acc with
  | nil =>
    rw [processContracts] at hrun
    cases hrun
    exact hacc
  | cons g rest ih =>
    cases hgres : resolveArtifact fs pt g with
    | error e =>
      cases e
      rw [processContracts_cons_error fs pt g rest acc hgres] at hrun
      cases hrun
    | ok p =>
      rcases p with ⟨b, a⟩
      rw [processContracts_cons_ok fs pt g rest acc b a hgres] at hrun
      apply ih _ _ hrun
      by_cases hfg : g = f
      · subst hfg
        rw [hres b a hgres]
        simpa using hacc
      · split
        · rw [assocFind_dictInsert_ne _ _ _ _ (fun h => hfg h.symm)]
          exact hacc
        · exact hacc

theorem processContracts_lookup_stable (fs : FS) (pt f : String) (files : List String)
    (acc m : List (String × Json)) (b a : Json)
    (hres : resolveArtifact fs pt f = .ok (b, a))
    (htr : (truthy b && truthy a) = true)
    (hacc : assocFind f acc = some (Json.obj [("bytecode", b), ("abi", a)]))
    (hrun : processContracts fs pt files acc = .ok m) :
    assocFind f m = some (Json.obj [("bytecode", b), ("abi", a)]) := by
  induction files generalizing acc with
  | nil =>
    rw [processContracts] at hrun
    cases hrun
    exact hacc
  | cons g rest ih =>
    cases hgres : resolveArtifact fs pt g with
    | error e =>
      cases e
      rw [processContracts_cons_error fs pt g rest acc hgres] at hrun
      cases hrun
    | ok p =>
      rcases p with ⟨b2, a2⟩
      rw [processContracts_cons_ok fs pt g rest acc b2 a2 hgres] at hrun
      apply ih _ _ hrun
      by_cases hfg : g = f
      · subst hfg
        rw [hres] at hgres
        injection hgres with hpair
        injection hpair with hb ha
        subst hb
        subst ha
        rw [if_pos htr]
        exact assocFind_dictInsert_self _ _ _
      · split
        · rw [assocFind_dictInsert_ne _ _ _ _ (fun h => hfg h.symm)]
          exact hacc
        · exact hacc

theorem processContracts_inserts (fs : FS) (pt f : String) (files : List String)
    (acc m : List (String × Json)) (b a : Json)
    (hres : resolveArtifact fs pt f = .ok (b, a))
    (htr : (truthy b && truthy a) = true)
    (hf : f ∈ files)
    (hrun : processContracts fs pt files acc = .ok m) :
    assocFind f m = some (Json.obj [("bytecode", b), ("abi", a)]) := by
  induction files generalizing acc with
  | nil => cases hf
  | cons g rest ih =>
    cases hgres : resolveArtifact fs pt g with
    | error e =>
      cases e
      rw [processContracts_cons_error fs pt g rest acc hgres] at hrun
      cases hrun
    | ok p =>
      rcases p with ⟨b2, a2⟩
      rw [processContracts_cons_ok fs pt g rest acc b2 a2 hgres] at hrun
      rcases List.mem_cons.mp hf with hg | hg
      · subst hg
        rw [hres] at hgres
        injection hgres with hpair
        injection hpair with hb ha
        subst hb
        subst ha
        rw [if_pos htr] at hrun
        exact processContracts_lookup_stable fs pt f rest _ m b a hres htr
          (assocFind_dictInsert_self _ _ _) hrun
      · exact ih _ hg hrun

theorem processContracts_keys_count (fs : FS) (pt f : String) (files : List String)
    (acc m : List (String × Json))
    (hacc : List.count f (acc.map Prod.fst) ≤ 1)
    (hrun : processContracts fs pt files acc = .ok m) :
    List.count f (m.map Prod.fst) ≤ 1 := by
  induction files generalizing acc with
  | nil =>
    rw [processContracts] at hrun
    cases hrun
    exact hacc
  | cons g rest ih =>
    cases hgres : resolveArtifact fs pt g with
    | error e =>
      cases e
      rw [processContracts_cons_error fs pt g rest acc hgres] at hrun
      cases hrun
    | ok p =>
      rcases p with ⟨b2, a2⟩
      rw [processContracts_cons_ok fs pt g rest acc b2 a2 hgres] at hrun
      apply ih _ _ hrun
      split
      · by_cases hany : acc.any (fun kv => g = kv.1) = true
        · rw [dictInsert_keys_present _ _ _ hany]
          exact hacc
        · rw [dictInsert_keys_absent _ _ _ hany, List.count_append]
          by_cases hfg : f = g
          · subst hfg
            have hmem : f ∉ acc.map Prod.fst := by
              intro hmem
              apply hany
              rcases List.mem_map.mp hmem with ⟨kv, hkv, hfst⟩
              exact List.any_eq_true.mpr ⟨kv, hkv, by simp [hfst]⟩
            rw [List.count_eq_zero.mpr hmem]
            simp
          · have : List.count f [g] = 0 := by
              simp [List.count_singleton, hfg]
            omega
      · exact hacc

/-! Helper lemmas about the directory walk. -/

theorem filter_map_nilChain (files : List String) (excl : List String) (p : String) :
    ((files.map (fun f => (([] : List String), f))).filter
        (fun e => goodExt e.2 && !excludedUnder excl p e.1)).map Prod.snd
      = files.filter goodExt := by
  induction files with
  | nil => rfl
  | cons f rest ih =>
    by_cases hg : goodExt f = true <;>
      simp [List.filter_cons, excludedUnder, hg, ih]

theorem filter_map_consChain (l : List (List String × String)) (d : String)
    (excl : List String) (p : String) :
    (((l.map (fun e => (d :: e.1, e.2))).filter
        (fun e => goodExt e.2 && !excludedUnder excl p e.1)).map Prod.snd)
      = if excl.contains (p ++ "/" ++ d) then []
        else ((l.filter
          (fun e => goodExt e.2 && !excludedUnder excl (p ++ "/" ++ d) e.1)).map Prod.snd) := by
  induction l with
  | nil => simp
  | cons e rest ih =>
    by_cases hc : excl.contains (p ++ "/" ++ d) = true
    · rw [if_pos hc] at ih ⊢
      simp only [List.map_cons, List.filter_cons, excludedUnder, hc, Bool.true_or,
        Bool.not_true, Bool.and_false, Bool.false_eq_true, if_false]
      exact ih
    · have hc' : excl.contains (p ++ "/" ++ d) = false := by
        simpa using hc
      rw [if_neg hc] at ih ⊢
      simp only [List.map_cons, List.filter_cons, excludedUnder, hc', Bool.false_or]
      by_cases hp : (goodExt e.2 && !excludedUnder excl (p ++ "/" ++ d) e.1) = true
      · simp [hp, ih]
      · have hp' : (goodExt e.2 && !excludedUnder excl (p ++ "/" ++ d) e.1) = false := by
          simpa using hp
        simp [hp', ih]

mutual
theorem walkCollect_eq (excl : List String) (p : String) :
    (t : DirTree) → walkCollect excl p t =
      ((filesOf t).filter (fun e => goodExt e.2 && !excludedUnder excl p e.1)).map Prod.snd
  | .node files subs => by
    rw [walkCollect, filesOf, List.filter_append, List.map_append,
      filter_map_nilChain files excl p, walkSubs_eq excl p subs]
theorem walkSubs_eq (excl : List String) (p : String) :
    (s : SubList) → walkSubs excl p s =
      ((filesOfSubs s).filter (fun e => goodExt e.2 && !excludedUnder excl p e.1)).map Prod.snd
  | .nil => rfl
  | .cons d t rest => by
    rw [walkSubs, filesOfSubs, List.filter_append, List.map_append,
      filter_map_consChain (filesOf t) d excl p, walkSubs_eq excl p rest]
    congr 1
    split
    · rfl
    · exact walkCollect_eq excl (p ++ "/" ++ d) t
end

theorem mem_walkCollect (excl : List String) (p : String) (t : DirTree) (f : String) :
    f ∈ walkCollect excl p t ↔
      ∃ ds, (ds, f) ∈ filesOf t ∧ goodExt f = true ∧ excludedUnder excl p ds = false := by
  rw [walkCollect_eq]
  constructor
  · intro hmem
    rcases List.mem_map.mp hmem with ⟨e, he, hsnd⟩
    rcases List.mem_filter.mp he with ⟨hl, hp⟩
    rcases e with ⟨ds, g⟩
    cases hsnd
    rcases Bool.and_eq_true_iff.mp hp with ⟨hg, hx⟩
    exact ⟨ds, hl, hg, by simpa using hx⟩
  · rintro ⟨ds, hl, hg, hx⟩
    apply List.mem_map.mpr
    refine ⟨(ds, f), List.mem_filter.mpr ⟨hl, ?_⟩, rfl⟩
    simp [hg, hx]

theorem two_le_countP {α : Type} (p : α → Bool) (l : List α) (a b : α)
    (hne : a ≠ b) (hpa : p a = true) (hpb : p b = true)
    (ha : a ∈ l) (hb : b ∈ l) :
    2 ≤ l.countP p := by
  induction l with
  | nil => cases ha
  | cons x xs ih =>
    rw [List.countP_cons]
    rcases List.mem_cons.mp ha with hax | hax
    · subst hax
      have hbx : b ∈ xs := by
        rcases List.mem_cons.mp hb with h | h
        · exact absurd h.symm hne
        · exact h
      have hpos : 0 < xs.countP p := List.countP_pos_iff.mpr ⟨b, hbx, hpb⟩
      rw [if_pos hpa]
      omega
    · rcases List.mem_cons.mp hb with hbx | hbx
      · subst hbx
        have hpos : 0 < xs.countP p := List.countP_pos_iff.mpr ⟨a, hax, hpa⟩
        rw [if_pos hpb]
        omega
      · have := ih hax hbx
        split <;> omega

theorem count_walkCollect_two (excl : List String) (p : String) (t : DirTree) (f : String)
    (ds₁ ds₂ : List String) (hne : ds₁ ≠ ds₂)
    (h₁ : (ds₁, f) ∈ filesOf t) (hx₁ : excludedUnder excl p ds₁ = false)
    (h₂ : (ds₂, f) ∈ filesOf t) (hx₂ : excludedUnder excl p ds₂ = false)
    (hext : goodExt f = true) :
    2 ≤ List.count f (walkCollect excl p t) := by
  rw [walkCollect_eq, List.count, List.countP_map]
  apply two_le_countP _ _ (ds₁, f) (ds₂, f)
    (by simp [hne]) (by simp) (by simp)
    (List.mem_filter.mpr ⟨h₁, by simp [hext, hx₁]⟩)
    (List.mem_filter.mpr ⟨h₂, by simp [hext, hx₂]⟩)

theorem count_walkCollect_one (excl : List String) (p : String) (t : DirTree) (f : String)
    (ds : List String)
    (h : (ds, f) ∈ filesOf t) (hx : excludedUnder excl p ds = false)
    (hext : goodExt f = true) :
    1 ≤ List.count f (walkCollect excl p t) :=
  List.count_pos_iff.mpr ((mem_walkCollect excl p t f).mpr ⟨ds, h, hext, hx⟩)

/-! Helper lemmas about the artifact resolvers. -/

theorem assocFind_mem {α : Type} (k : String) (l : List (String × α)) (v : α)
    (h : assocFind k l = some v) : (k, v) ∈ l := by
  induction l with
  | nil => cases h
  | cons kv rest ih =>
    rw [assocFind] at h
    by_cases hk : k = kv.1
    · rw [if_pos hk] at h
      injection h with hv
      apply List.mem_cons.mpr
      left
      rw [hk, ← hv]
    · rw [if_neg hk] at h
      exact List.mem_cons_of_mem _ (ih h)

theorem wfArtifact_of_lookup (fs : FS) (p : String) (j : Json)
    (hwf : wellFormedFS fs = true) (h : lookupFile fs p = some (.valid j)) :
    wfArtifactJson j = true := by
  unfold lookupFile at h
  have hmem := assocFind_mem p fs.artifacts (ArtifactFile.valid j) h
  have := List.all_eq_true.mp hwf _ hmem
  simpa using this

theorem get_ape_missing (fs : FS) (n : String)
    (h : lookupFile fs (apePath n) = none) :
    get_ape_artifacts fs n = .ok (Json.null, Json.null) := by
  unfold get_ape_artifacts
  rw [h]

theorem get_foundry_missing (fs : FS) (n : String)
    (h : lookupFile fs (foundryPath n) = none) :
    get_foundry_artifacts fs n = .ok (Json.null, Json.null) := by
  unfold get_foundry_artifacts
  rw [h]

theorem get_ape_invalid (fs : FS) (n : String)
    (h : lookupFile fs (apePath n) = some .invalid) :
    get_ape_artifacts fs n = .error () := by
  unfold get_ape_artifacts
  rw [h]

theorem get_foundry_invalid (fs : FS) (n : String)
    (h : lookupFile fs (foundryPath n) = some .invalid) :
    get_foundry_artifacts fs n = .error () := by
  unfold get_foundry_artifacts
  rw [h]

theorem truthy_pair_contra (x y b a : Json)
    (h : (Except.ok (x, y) : Except Unit (Json × Json)) = Except.ok (b, a))
    (htr : (truthy b && truthy a) = true)
    (hxy : truthy x = false ∨ truthy y = false) : False := by
  injection h with hp
  injection hp with hb ha
  subst hb
  subst ha
  rcases hxy with hx | hy
  · rw [hx, Bool.false_and] at htr
    cases htr
  · rw [hy, Bool.and_false] at htr
    cases htr

theorem wf_nested_str (entries inner : List (String × Json)) (k1 k2 : String) (v : Json)
    (hwf : nestedFieldIsStr entries k1 k2 = true)
    (h1 : objLookup k1 entries = some (Json.obj inner))
    (h2 : objLookup k2 inner = some v) :
    ∃ s, v = Json.str s := by
  unfold nestedFieldIsStr at hwf
  rw [h1] at hwf
  dsimp only at hwf
  rw [h2] at hwf
  cases v with
  | str s => exact ⟨s, rfl⟩
  | null => simp at hwf
  | bool w => simp at hwf
  | num w => simp at hwf
  | arr w => simp at hwf
  | obj w => simp at hwf

theorem wf_abi_arr (entries : List (String × Json)) (v : Json)
    (hwf : wfArtifactJson (Json.obj entries) = true)
    (h : objLookup "abi" entries = some v) :
    ∃ l, v = Json.arr l := by
  unfold wfArtifactJson at hwf
  dsimp only at hwf
  rw [h] at hwf
  rcases Bool.and_eq_true_iff.mp hwf with ⟨_, h2⟩
  cases v with
  | arr l => exact ⟨l, rfl⟩
  | null => simp at h2
  | bool w => simp at h2
  | num w => simp at h2
  | str w => simp at h2
  | obj w => simp at h2

theorem wfArtifact_bytecode (entries : List (String × Json))
    (hwf : wfArtifactJson (Json.obj entries) = true) :
    nestedFieldIsStr entries "bytecode" "object" = true := by
  unfold wfArtifactJson at hwf
  dsimp only at hwf
  rcases Bool.and_eq_true_iff.mp hwf with ⟨h1, _⟩
  rcases Bool.and_eq_true_iff.mp h1 with ⟨h2, _⟩
  exact h2

theorem wfArtifact_deployment (entries : List (String × Json))
    (hwf : wfArtifactJson (Json.obj entries) = true) :
    nestedFieldIsStr entries "deploymentBytecode" "bytecode" = true := by
  unfold wfArtifactJson at hwf
  dsimp only at hwf
  rcases Bool.and_eq_true_iff.mp hwf with ⟨h1, _⟩
  rcases Bool.and_eq_true_iff.mp h1 with ⟨_, h3⟩
  exact h3

theorem resolve_wf_foundry (fs : FS) (n : String) (b a : Json)
    (hwf : wellFormedFS fs = true)
    (hres : get_foundry_artifacts fs n = .ok (b, a))
    (htr : (truthy b && truthy a) = true) :
    ∃ s l, b = Json.str s ∧ s ≠ "" ∧ s ≠ "0x" ∧ a = Json.arr l ∧ l ≠ [] := by
  unfold get_foundry_artifacts at hres
  cases hfile : lookupFile fs (foundryPath n) with
  | none =>
    rw [hfile] at hres
    dsimp only at hres
    exact (truthy_pair_contra _ _ b a hres htr (Or.inl rfl)).elim
  | some af =>
    rw [hfile] at hres
    cases af with
    | invalid => cases hres
    | valid artifact =>
      cases artifact with
      | null => simp [dictGet] at hres
      | bool v => simp [dictGet] at hres
      | num v => simp [dictGet] at hres
      | str v => simp [dictGet] at hres
      | arr v => simp [dictGet] at hres
      | obj entries =>
        have hwfa := wfArtifact_of_lookup fs (foundryPath n) (Json.obj entries) hwf hfile
        dsimp only [dictGet] at hres
        cases hb1 : objLookup "bytecode" entries with
        | none =>
          rw [hb1] at hres
          dsimp only [Option.getD, dictGet, objLookup, isStr0x, truthy] at hres
          rw [Bool.false_and] at hres
          simp only [Bool.false_eq_true, if_false] at hres
          exact (truthy_pair_contra _ _ b a hres htr (Or.inl rfl)).elim
        | some bv =>
          rw [hb1] at hres
          cases bv with
          | null => simp [Option.getD, dictGet] at hres
          | bool v => simp [Option.getD, dictGet] at hres
          | num v => simp [Option.getD, dictGet] at hres
          | str v => simp [Option.getD, dictGet] at hres
          | arr v => simp [Option.getD, dictGet] at hres
          | obj inner =>
            dsimp only [Option.getD, dictGet] at hres
            cases hov : objLookup "object" inner with
            | none =>
              rw [hov] at hres
              dsimp only [Option.getD, isStr0x, truthy] at hres
              rw [Bool.false_and] at hres
              simp only [Bool.false_eq_true, if_false] at hres
              exact (truthy_pair_contra _ _ b a hres htr (Or.inl rfl)).elim
            | some ov =>
              rw [hov] at hres
              obtain ⟨s, rfl⟩ :=
                wf_nested_str entries inner "bytecode" "object" ov
                  (wfArtifact_bytecode entries hwfa) hb1 hov
              dsimp only [Option.getD] at hres
              by_cases hs0 : s = "0x"
              · rw [if_pos (by simp [isStr0x, hs0])] at hres
                exact (truthy_pair_contra _ _ b a hres htr (Or.inl rfl)).elim
              · rw [if_neg (by simp [isStr0x, hs0])] at hres
                dsimp only [sliceable] at hres
                rw [Bool.not_true, Bool.and_false] at hres
                simp only [Bool.false_eq_true, if_false] at hres
                cases habi : objLookup "abi" entries with
                | none =>
                  rw [habi] at hres
                  dsimp only [Option.getD] at hres
                  exact (truthy_pair_contra _ _ b a hres htr (Or.inr rfl)).elim
                | some av =>
                  rw [habi] at hres
                  obtain ⟨l, rfl⟩ := wf_abi_arr entries av hwfa habi
                  dsimp only [Option.getD] at hres
                  injection hres with hp
                  injection hp with hb ha
                  subst hb
                  subst ha
                  refine ⟨s, l, rfl, ?_, hs0, rfl, ?_⟩
                  · rcases Bool.and_eq_true_iff.mp htr with ⟨h1, _⟩
                    dsimp only [truthy] at h1
                    simpa using h1
                  · rcases Bool.and_eq_true_iff.mp htr with ⟨_, h2⟩
                    dsimp only [truthy] at h2
                    simpa using h2

theorem resolve_wf_ape (fs : FS) (n : String) (b a : Json)
    (hwf : wellFormedFS fs = true)
    (hres : get_ape_artifacts fs n = .ok (b, a))
    (htr : (truthy b && truthy a) = true) :
    ∃ s l, b = Json.str s ∧ s ≠ "" ∧ s ≠ "0x" ∧ a = Json.arr l ∧ l ≠ [] := by
  unfold get_ape_artifacts at hres
  cases hfile : lookupFile fs (apePath n) with
  | none =>
    rw [hfile] at hres
    dsimp only at hres
    exact (truthy_pair_contra _ _ b a hres htr (Or.inl rfl)).elim
  | some af =>
    rw [hfile] at hres
    cases af with
    | invalid => cases hres
    | valid artifact =>
      cases artifact with
      | null => simp [dictGet] at hres
      | bool v => simp [dictGet] at hres
      | num v => simp [dictGet] at hres
      | str v => simp [dictGet] at hres
      | arr v => simp [dictGet] at hres
      | obj entries =>
        have hwfa := wfArtifact_of_lookup fs (apePath n) (Json.obj entries) hwf hfile
        dsimp only [dictGet] at hres
        have habiV : ∃ l, (objLookup "abi" entries).getD (Json.arr []) = Json.arr l := by
          cases habi : objLookup "abi" entries with
          | none => exact ⟨[], rfl⟩
          | some av =>
            obtain ⟨l, rfl⟩ := wf_abi_arr entries av hwfa habi
            exact ⟨l, rfl⟩
        obtain ⟨l, habiV⟩ := habiV
        cases hd1 : objLookup "deploymentBytecode" entries with
        | none =>
          rw [habiV, hd1] at hres
          simp only [Option.getD_none] at hres
          dsimp only [dictGet, objLookup] at hres
          simp only [Option.getD_none] at hres
          dsimp only [sliceable, truthy] at hres
          simp only [Bool.not_true, Bool.false_eq_true, if_false, bne_self_eq_false,
            Bool.false_and] at hres
          exact (truthy_pair_contra _ _ b a hres htr (Or.inl rfl)).elim
        | some dv =>
          rw [hd1] at hres
          cases dv with
          | null => simp [Option.getD, dictGet] at hres
          | bool v => simp [Option.getD, dictGet] at hres
          | num v => simp [Option.getD, dictGet] at hres
          | str v => simp [Option.getD, dictGet] at hres
          | arr v => simp [Option.getD, dictGet] at hres
          | obj inner =>
            simp only [Option.getD_some] at hres
            have hbv : ∃ s, (objLookup "bytecode" inner).getD (Json.str "") = Json.str s := by
              cases hbi : objLookup "bytecode" inner with
              | none => exact ⟨"", rfl⟩
              | some bv =>
                obtain ⟨s, rfl⟩ :=
                  wf_nested_str entries inner "deploymentBytecode" "bytecode" bv
                    (wfArtifact_deployment entries hwfa) hd1 hbi
                exact ⟨s, rfl⟩
            obtain ⟨s, hbvV⟩ := hbv
            rw [hbvV, habiV] at hres
            dsimp only [sliceable] at hres
            simp only [Bool.not_true, Bool.false_eq_true, if_false] at hres
            by_cases hcond : (truthy (Json.str s) && !isStr0x (Json.str s)) = true
            · rw [if_pos hcond] at hres
              injection hres with hp
              injection hp with hb ha
              subst hb
              subst ha
              rcases Bool.and_eq_true_iff.mp hcond with ⟨h1, h2⟩
              refine ⟨s, l, rfl, ?_, ?_, rfl, ?_⟩
              · dsimp only [truthy] at h1
                simpa using h1
              · dsimp only [isStr0x] at h2
                simpa using h2
              · rcases Bool.and_eq_true_iff.mp htr with ⟨_, h4⟩
                dsimp only [truthy] at h4
                simpa using h4
            · rw [if_neg hcond] at hres
              exact (truthy_pair_contra _ _ b a hres htr (Or.inl rfl)).elim

theorem mem_dictInsert (m : List (String × Json)) (f : String) (w : Json) (k : String) (v : Json)
    (h : (k, v) ∈ dictInsert m f w) : (k, v) ∈ m ∨ v = w := by
  unfold dictInsert at h
  split at h
  · rcases List.mem_map.mp h with ⟨kv, hkv, heq⟩
    by_cases hf : f = kv.1
    · rw [if_pos hf] at heq
      injection heq with hk hv
      right
      exact hv.symm
    · rw [if_neg hf] at heq
      left
      rw [← heq]
      exact hkv
  · rcases List.mem_append.mp h with h1 | h1
    · left
      exact h1
    · right
      cases List.mem_singleton.mp h1
      rfl

theorem processContracts_mem (fs : FS) (pt : String) (files : List String)
    (acc m : List (String × Json)) (P : Json → Prop)
    (hacc : ∀ k v, (k, v) ∈ acc → P v)
    (hins : ∀ g b a, resolveArtifact fs pt g = .ok (b, a) → (truthy b && truthy a) = true →
      P (Json.obj [("bytecode", b), ("abi", a)]))
    (hrun : processContracts fs pt files acc = .ok m) :
    ∀ k v, (k, v) ∈ m → P v := by
  induction files generalizing acc with
  | nil =>
    rw [processContracts] at hrun
    cases hrun
    exact hacc
  | cons g rest ih =>
    cases hgres : resolveArtifact fs pt g with
    | error e =>
      cases e
      rw [processContracts_cons_error fs pt g rest acc hgres] at hrun
      cases hrun
    | ok p =>
      rcases p with ⟨b2, a2⟩
      rw [processContracts_cons_ok fs pt g rest acc b2 a2 hgres] at hrun
      apply ih _ _ hrun
      intro k v hkv
      split at hkv
      · next htr2 =>
        rcases mem_dictInsert acc g _ k v hkv with hold | hnew
        · exact hacc k v hold
        · rw [hnew]
          exact hins g b2 a2 hgres htr2
      · exact hacc k v hkv

theorem assocFind_writeFile (fs : FS) (p d : String) :
    assocFind p (writeFile fs p d).written = some d := by
  unfold writeFile
  simp [assocFind]

theorem save_release_ok (fs : FS) (d : String) :
    ∃ fs2, save_to_file fs RELEASE_DATA_FILE_PATH d = .ok fs2 ∧
      assocFind RELEASE_DATA_FILE_PATH fs2.written = some d := by
  unfold save_to_file
  have hdir : dirname RELEASE_DATA_FILE_PATH = "./release" := by decide
  rw [hdir]
  by_cases h : dirExists fs "./release" = true
  · rw [if_pos h]
    exact ⟨_, rfl, assocFind_writeFile fs _ d⟩
  · rw [if_neg h]
    unfold makedirs
    rw [if_neg (by decide)]
    exact ⟨_, rfl, assocFind_writeFile _ _ d⟩

theorem treeAt_root (fs : FS) (r : String) (t : DirTree)
    (h : treeAt fs r = some t) : r = "contracts" ∨ r = "src" := by
  unfold treeAt at h
  by_cases h1 : r = "contracts"
  · left
    exact h1
  · rw [if_neg h1] at h
    by_cases h2 : r = "src"
    · right
      exact h2
    · rw [if_neg h2] at h
      cases h

theorem get_contract_files_eq_rootFiles (fs : FS) :
    get_contract_files fs = rootFiles fs "contracts" ++ rootFiles fs "src" := rfl

theorem rootFiles_eq (fs : FS) (r : String) (t : DirTree) (h : treeAt fs r = some t) :
    rootFiles fs r = walkCollect directories_to_exclude r t := by
  unfold rootFiles
  rw [h]

theorem mem_rootFiles (fs : FS) (r : String) (t : DirTree) (ds : List String) (f : String)
    (h : treeAt fs r = some t) (hm : (ds, f) ∈ filesOf t)
    (hx : excludedUnder directories_to_exclude r ds = false)
    (hext : goodExt f = true) :
    f ∈ get_contract_files fs := by
  rw [get_contract_files_eq_rootFiles]
  apply List.mem_append.mpr
  rcases treeAt_root fs r t h with hr | hr
  · left
    rw [← hr, rootFiles_eq fs r t h]
    exact (mem_walkCollect _ _ _ _).mpr ⟨ds, hm, hext, hx⟩
  · right
    rw [← hr, rootFiles_eq fs r t h]
    exact (mem_walkCollect _ _ _ _).mpr ⟨ds, hm, hext, hx⟩

/-! The claims. -/

/-- Claim C8: for every filesystem state, `detect_project_type` returns
`'ape'` if and only if `ape-config.yaml` or `ape-config.yml` exists in the
working directory, and otherwise returns `'foundry'`; detection has no
error path and always returns one of the two tags. -/
theorem claim8_detect_project_type (fs : FS) :
    (detect_project_type fs = "ape" ↔ (fs.apeYaml = true ∨ fs.apeYml = true)) ∧
    (detect_project_type fs = "ape" ∨ detect_project_type fs = "foundry") := by
  unfold detect_project_type
  by_cases h : (fs.apeYaml || fs.apeYml) = true
  · rw [if_pos h]
    exact ⟨⟨fun _ => Bool.or_eq_true_iff.mp h, fun _ => rfl⟩, Or.inl rfl⟩
  · rw [if_neg h]
    refine ⟨⟨fun hape => absurd hape (by decide), ?_⟩, Or.inr rfl⟩
    intro hor
    exact absurd (Bool.or_eq_true_iff.mpr hor) h

/-- Witness for C8 at a concrete filesystem: with `ape-config.yaml`
present, detection returns `'ape'`. -/
theorem claim8_detect_project_type_witness : detect_project_type fsC2 = "ape" :=
  (claim8_detect_project_type fsC2).1.mpr (Or.inl rfl)

/-- Claim C5: the locator's output contains exactly the basenames of files
ending in `.sol` or `.vy` that lie under an existing root
(`./contracts` or `./src`) and are not inside a pruned subdirectory of
the fixed exclusion list, and no other filenames; missing roots
contribute nothing (they are skipped without error). -/
theorem claim5_locator_exact (fs : FS) (f : String) :
    f ∈ get_contract_files fs ↔
      (goodExt f = true ∧
        ((∃ t ds, fs.contractsTree = some t ∧ (ds, f) ∈ filesOf t ∧
            excludedUnder directories_to_exclude "contracts" ds = false) ∨
         (∃ t ds, fs.srcTree = some t ∧ (ds, f) ∈ filesOf t ∧
            excludedUnder directories_to_exclude "src" ds = false))) := by
  unfold get_contract_files
  rw [List.mem_append]
  constructor
  · rintro (h | h)
    · cases hct : fs.contractsTree with
      | none => rw [hct] at h; cases h
      | some t =>
        rw [hct] at h
        rcases (mem_walkCollect _ _ _ _).mp h with ⟨ds, hmem, hg, hx⟩
        exact ⟨hg, Or.inl ⟨t, ds, rfl, hmem, hx⟩⟩
    · cases hst : fs.srcTree with
      | none => rw [hst] at h; cases h
      | some t =>
        rw [hst] at h
        rcases (mem_walkCollect _ _ _ _).mp h with ⟨ds, hmem, hg, hx⟩
        exact ⟨hg, Or.inr ⟨t, ds, rfl, hmem, hx⟩⟩
  · rintro ⟨hg, ⟨t, ds, hct, hmem, hx⟩ | ⟨t, ds, hst, hmem, hx⟩⟩
    · left
      rw [hct]
      exact (mem_walkCollect _ _ _ _).mpr ⟨ds, hmem, hg, hx⟩
    · right
      rw [hst]
      exact (mem_walkCollect _ _ _ _).mpr ⟨ds, hmem, hg, hx⟩

/-- Witness for C5 at a concrete filesystem: `Vault.sol` under
`./contracts` is located. -/
theorem claim5_locator_exact_witness : "Vault.sol" ∈ get_contract_files fsGood :=
  (claim5_locator_exact fsGood "Vault.sol").mpr
    ⟨rfl, Or.inl ⟨DirTree.node ["Vault.sol"] SubList.nil, [], rfl, by decide, rfl⟩⟩

/-- Claim C3: for a contract filename whose tool-specific artifact file
does not exist on disk, both resolvers return `(None, None)` without
raising, and the filename does not appear as a key in the contracts
mapping produced by the assembly loop. -/
theorem claim3_missing_artifact_skipped (fs : FS) (pt name : String) (files : List String)
    (m : List (String × Json))
    (hape : lookupFile fs (apePath name) = none)
    (hfou : lookupFile fs (foundryPath name) = none)
    (hrun : processContracts fs pt files [] = .ok m) :
    get_ape_artifacts fs name = .ok (Json.null, Json.null) ∧
    get_foundry_artifacts fs name = .ok (Json.null, Json.null) ∧
    assocFind name m = none := by
  refine ⟨get_ape_missing fs name hape, get_foundry_missing fs name hfou, ?_⟩
  apply processContracts_not_inserted fs pt name files [] m ?_ rfl hrun
  intro b a hres
  unfold resolveArtifact at hres
  split at hres
  · rw [get_foundry_missing fs name hfou] at hres
    injection hres with hp
    injection hp with hb ha
    rw [← hb, truthy, Bool.false_and]
  · rw [get_ape_missing fs name hape] at hres
    injection hres with hp
    injection hp with hb ha
    rw [← hb, truthy, Bool.false_and]

/-- Witness for C3 at a concrete filesystem with no artifacts at all. -/
theorem claim3_missing_artifact_skipped_witness :
    get_ape_artifacts emptyFS "Ghost.sol" = .ok (Json.null, Json.null) ∧
    get_foundry_artifacts emptyFS "Ghost.sol" = .ok (Json.null, Json.null) ∧
    assocFind "Ghost.sol" ([] : List (String × Json)) = none :=
  claim3_missing_artifact_skipped emptyFS "foundry" "Ghost.sol" ["Ghost.sol"] [] rfl rfl rfl

/-- Claim C10: the writer raises before writing when the target path has
an empty parent-directory component, because `os.path.exists('')` is
false and `os.makedirs('')` raises; a write can only succeed when the
parent-directory component is nonempty. -/
theorem claim10_bare_filename_fails (fs : FS) (path data : String) :
    (dirname path = "" → save_to_file fs path data = .error ()) ∧
    (∀ fs2, save_to_file fs path data = .ok fs2 → dirname path ≠ "") := by
  constructor
  · intro h
    unfold save_to_file
    rw [h]
    simp [dirExists, makedirs]
  · intro fs2 hok hdir
    unfold save_to_file at hok
    rw [hdir] at hok
    simp [dirExists, makedirs] at hok

/-- Witness for C10: writing to the bare filename `release_data.json`
raises. -/
theorem claim10_bare_filename_fails_witness :
    dirname "release_data.json" = "" ∧
    save_to_file emptyFS "release_data.json" "data" = .error () :=
  ⟨rfl, (claim10_bare_filename_fails emptyFS "release_data.json" "data").1 rfl⟩

/-- Claim C4: assuming the artifact files follow the build tools'
documented layout (bytecode fields are strings, abi fields are arrays),
every entry the assembly loop inserts into the contracts mapping has a
non-empty bytecode string different from the placeholder `"0x"` and a
non-empty parsed abi array; no violating entry is ever inserted. -/
theorem claim4_manifest_entry_invariant (fs : FS) (pt : String) (files : List String)
    (m : List (String × Json)) (k : String) (v : Json)
    (hwf : wellFormedFS fs = true)
    (hrun : processContracts fs pt files [] = .ok m)
    (hkv : (k, v) ∈ m) :
    ∃ s l, v = Json.obj [("bytecode", Json.str s), ("abi", Json.arr l)] ∧
      s ≠ "" ∧ s ≠ "0x" ∧ l ≠ [] := by
  refine processContracts_mem fs pt files [] m
    (fun v => ∃ s l, v = Json.obj [("bytecode", Json.str s), ("abi", Json.arr l)] ∧
      s ≠ "" ∧ s ≠ "0x" ∧ l ≠ [])
    (fun _ _ h => absurd h (List.not_mem_nil _)) ?_ hrun k v hkv
  intro g b a hres htr
  unfold resolveArtifact at hres
  split at hres
  · obtain ⟨s, l, hb, hs1, hs2, ha, hl⟩ := resolve_wf_foundry fs g b a hwf hres htr
    exact ⟨s, l, by rw [hb, ha], hs1, hs2, hl⟩
  · obtain ⟨s, l, hb, hs1, hs2, ha, hl⟩ := resolve_wf_ape fs g b a hwf hres htr
    exact ⟨s, l, by rw [hb, ha], hs1, hs2, hl⟩

/-- Witness for C4 at a concrete foundry filesystem with one well-formed
artifact. -/
theorem claim4_manifest_entry_invariant_witness :
    ∃ s l, Json.obj [("bytecode", Json.str "0x6080604052"), ("abi", Json.arr [exAbiEntry])]
        = Json.obj [("bytecode", Json.str s), ("abi", Json.arr l)] ∧
      s ≠ "" ∧ s ≠ "0x" ∧ l ≠ [] :=
  claim4_manifest_entry_invariant fsGood "foundry" ["Vault.sol"]
    [("Vault.sol", Json.obj [("bytecode", Json.str "0x6080604052"),
      ("abi", Json.arr [exAbiEntry])])]
    "Vault.sol"
    (Json.obj [("bytecode", Json.str "0x6080604052"), ("abi", Json.arr [exAbiEntry])])
    rfl rfl (List.mem_singleton.mpr rfl)

/-- Claim C9: when an artifact file exists but is not valid JSON, the
resolver for the detected project type raises instead of returning the
absent pair, so the whole run of `build_release_data` aborts with an
uncaught exception and no manifest is written. -/
theorem claim9_invalid_json_aborts (fs : FS) (now : Int) (release name : String)
    (hmem : name ∈ get_contract_files fs)
    (hbad : lookupFile fs
      (if detect_project_type fs = "foundry" then foundryPath name else apePath name)
        = some .invalid) :
    resolveArtifact fs (detect_project_type fs) name = .error () ∧
    build_release_data fs now release = .error () := by
  have hres : resolveArtifact fs (detect_project_type fs) name = .error () := by
    unfold resolveArtifact
    by_cases hpt : detect_project_type fs = "foundry"
    · rw [if_pos hpt]
      rw [if_pos hpt] at hbad
      exact get_foundry_invalid fs name hbad
    · rw [if_neg hpt]
      rw [if_neg hpt] at hbad
      exact get_ape_invalid fs name hbad
  refine ⟨hres, ?_⟩
  unfold build_release_data
  rw [processContracts_error_of_mem fs _ name _ [] hmem hres]

/-- Witness for C9 at a concrete ape filesystem holding an unparseable
artifact for the located `Bad.vy`. -/
theorem claim9_invalid_json_aborts_witness :
    resolveArtifact fsC9 (detect_project_type fsC9) "Bad.vy" = .error () ∧
    build_release_data fsC9 0 "v1" = .error () :=
  claim9_invalid_json_aborts fsC9 0 "v1" "Bad.vy" (by decide) rfl

/-- Claim C6: a run that reaches the write step writes, to the fixed path
`./release/release_data.json`, exactly the serialization with 2-space
indentation of
`{"releases": {release: {"release_timestamp": now, "contracts": m}}}`,
and the write fully replaces whatever was previously at that path (the
final content is independent of the prior filesystem contents). -/
theorem claim6_manifest_shape_and_overwrite (fs : FS) (now : Int) (release : String)
    (m : List (String × Json))
    (hrun : processContracts fs (detect_project_type fs) (get_contract_files fs) [] = .ok m) :
    RELEASE_DATA_FILE_PATH = "./release/release_data.json" ∧
    ∃ fs2, build_release_data fs now release = .ok fs2 ∧
      assocFind RELEASE_DATA_FILE_PATH fs2.written =
        some (dumpsJson 2 0 (Json.obj [("releases", Json.obj [(release,
          Json.obj [("release_timestamp", Json.num now),
                    ("contracts", Json.obj m)])])])) := by
  refine ⟨rfl, ?_⟩
  unfold build_release_data
  rw [hrun]
  obtain ⟨fs2, hsave, hfind⟩ :=
    save_release_ok fs (dumpsJson 2 0 (manifestJson release now m))
  exact ⟨fs2, hsave, hfind⟩

/-- Witness for C6 at a concrete foundry filesystem with one resolvable
contract. -/
theorem claim6_manifest_shape_and_overwrite_witness :
    RELEASE_DATA_FILE_PATH = "./release/release_data.json" ∧
    ∃ fs2, build_release_data fsGood 1700000000 "v3.0.3" = .ok fs2 ∧
      assocFind RELEASE_DATA_FILE_PATH fs2.written =
        some (dumpsJson 2 0 (Json.obj [("releases", Json.obj [("v3.0.3",
          Json.obj [("release_timestamp", Json.num 1700000000),
                    ("contracts", Json.obj [("Vault.sol",
                      Json.obj [("bytecode", Json.str "0x6080604052"),
                                ("abi", Json.arr [exAbiEntry])])])])])])) :=
  claim6_manifest_shape_and_overwrite fsGood 1700000000 "v3.0.3"
    [("Vault.sol", Json.obj [("bytecode", Json.str "0x6080604052"),
      ("abi", Json.arr [exAbiEntry])])] rfl

/-- Counterexample to claim C2 as stated: on an artifact with placeholder
bytecode `"0x"`, the ape resolver returns an absent bytecode but the
parsed, nonempty interface description — NOT absent for both. -/
theorem claim2_counterexample :
    get_ape_artifacts fsC2 "Vault.vy" = .ok (Json.null, Json.arr [exAbiEntry]) ∧
    Json.arr [exAbiEntry] ≠ Json.null :=
  ⟨rfl, fun h => Json.noConfusion h⟩

/-- Claim C2 as amended: on placeholder bytecode `"0x"`, the foundry
resolver returns absent for both components, while the ape resolver
returns an absent bytecode together with the interface description as
parsed from the file (which need not be absent). -/
theorem claim2_placeholder_bytecode (fs : FS) (n : String) :
    (∀ entries inner,
      lookupFile fs (foundryPath n) = some (.valid (Json.obj entries)) →
      objLookup "bytecode" entries = some (Json.obj inner) →
      objLookup "object" inner = some (Json.str "0x") →
      get_foundry_artifacts fs n = .ok (Json.null, Json.null)) ∧
    (∀ entries inner l,
      lookupFile fs (apePath n) = some (.valid (Json.obj entries)) →
      objLookup "deploymentBytecode" entries = some (Json.obj inner) →
      objLookup "bytecode" inner = some (Json.str "0x") →
      (objLookup "abi" entries).getD (Json.arr []) = Json.arr l →
      get_ape_artifacts fs n = .ok (Json.null, Json.arr l)) := by
  constructor
  · intro entries inner hfile hb1 hov
    unfold get_foundry_artifacts
    rw [hfile]
    dsimp only [dictGet]
    rw [hb1]
    simp only [Option.getD_some]
    rw [hov]
    simp only [Option.getD_some]
    rw [if_pos (by rfl)]
  · intro entries inner l hfile hd1 hbi habi
    unfold get_ape_artifacts
    rw [hfile]
    dsimp only [dictGet]
    rw [habi, hd1]
    simp only [Option.getD_some]
    rw [hbi]
    simp only [Option.getD_some]
    dsimp only [sliceable, truthy, isStr0x]
    simp only [Bool.not_true, Bool.false_eq_true, if_false]
    rw [if_neg (by decide)]

/-- Witness for the amended C2 at concrete filesystems for both project
types. -/
theorem claim2_placeholder_bytecode_witness :
    get_foundry_artifacts fsC2f "Zero.sol" = .ok (Json.null, Json.null) ∧
    get_ape_artifacts fsC2 "Vault.vy" = .ok (Json.null, Json.arr [exAbiEntry]) :=
  ⟨(claim2_placeholder_bytecode fsC2f "Zero.sol").1 _ _ rfl rfl rfl,
   (claim2_placeholder_bytecode fsC2 "Vault.vy").2 _ _ _ rfl rfl rfl rfl⟩

/-- Counterexample to claim C1 as stated: with project type foundry and a
located `.vy` contract file, the run raises no error, completes, and
writes the manifest file. -/
theorem claim1_counterexample :
    detect_project_type fsC1 = "foundry" ∧
    get_contract_files fsC1 = ["Token.vy"] ∧
    strEndsWith "Token.vy" ".vy" = true ∧
    runWrites fsC1 0 "v1" = true :=
  ⟨rfl, rfl, rfl, rfl⟩

/-- Claim C1 as amended: under foundry, a `.vy` file (whose name contains
no `.sol` to strip) is looked up at the nonsensical path
`./out/<name>.sol/<name>.json`; when that path is absent, the resolver
returns `(None, None)` without raising, the contract is skipped, and the
run proceeds to write the manifest. -/
theorem claim1_foundry_vy_skipped (fs : FS) (now : Int) (release name : String)
    (m : List (String × Json))
    (hdet : detect_project_type fs = "foundry")
    (hvy : strEndsWith name ".vy" = true)
    (hnosol : foundryBase name = name)
    (hmiss : lookupFile fs (foundryPath name) = none)
    (hrun : processContracts fs "foundry" (get_contract_files fs) [] = .ok m) :
    foundryPath name = "./out/" ++ name ++ ".sol/" ++ name ++ ".json" ∧
    get_foundry_artifacts fs name = .ok (Json.null, Json.null) ∧
    assocFind name m = none ∧
    ∃ fs2, build_release_data fs now release = .ok fs2 ∧
      assocFind RELEASE_DATA_FILE_PATH fs2.written ≠ none := by
  have hp : foundryPath name = "./out/" ++ name ++ ".sol/" ++ name ++ ".json" := by
    unfold foundryPath
    rw [hnosol]
  have hres := get_foundry_missing fs name hmiss
  refine ⟨hp, hres, ?_, ?_⟩
  · apply processContracts_not_inserted fs "foundry" name _ [] m ?_ rfl hrun
    intro b a hba
    unfold resolveArtifact at hba
    rw [if_pos rfl, hres] at hba
    injection hba with hpair
    injection hpair with hb ha
    rw [← hb, truthy, Bool.false_and]
  · unfold build_release_data
    rw [hdet, hrun]
    obtain ⟨fs2, hsave, hfind⟩ :=
      save_release_ok fs (dumpsJson 2 0 (manifestJson release now m))
    refine ⟨fs2, hsave, ?_⟩
    rw [hfind]
    exact fun h => Option.noConfusion h

/-- Witness for the amended C1 at the concrete foundry filesystem holding
only `Token.vy`. -/
theorem claim1_foundry_vy_skipped_witness :
    ∃ fs2, build_release_data fsC1 0 "v1" = .ok fs2 ∧
      assocFind RELEASE_DATA_FILE_PATH fs2.written ≠ none :=
  (claim1_foundry_vy_skipped fsC1 0 "v1" "Token.vy" [] rfl rfl rfl rfl rfl).2.2.2

/-- Claim C7: two contract files in different directories sharing a
basename are both collected (the basename occurs at least twice in the
locator's output), and the contracts mapping holds a single entry under
the shared key whose value is the artifact of the last resolution — the
resolvers are functions of the filename only, so every occurrence
resolves to that same artifact and the last insert silently overwrites
the earlier one. -/
theorem claim7_duplicate_basenames (fs : FS) (r1 r2 : String) (t1 t2 : DirTree)
    (ds1 ds2 : List String) (f : String) (b a : Json) (m : List (String × Json))
    (h1 : treeAt fs r1 = some t1) (hm1 : (ds1, f) ∈ filesOf t1)
    (hx1 : excludedUnder directories_to_exclude r1 ds1 = false)
    (h2 : treeAt fs r2 = some t2) (hm2 : (ds2, f) ∈ filesOf t2)
    (hx2 : excludedUnder directories_to_exclude r2 ds2 = false)
    (hne : (r1, ds1) ≠ (r2, ds2))
    (hext : goodExt f = true)
    (hres : resolveArtifact fs (detect_project_type fs) f = .ok (b, a))
    (htr : (truthy b && truthy a) = true)
    (hrun : processContracts fs (detect_project_type fs) (get_contract_files fs) [] = .ok m) :
    2 ≤ List.count f (get_contract_files fs) ∧
    assocFind f m = some (Json.obj [("bytecode", b), ("abi", a)]) ∧
    List.count f (m.map Prod.fst) ≤ 1 := by
  have hfmem : f ∈ get_contract_files fs :=
    mem_rootFiles fs r1 t1 ds1 f h1 hm1 hx1 hext
  refine ⟨?_, processContracts_inserts fs _ f _ [] m b a hres htr hfmem hrun,
    processContracts_keys_count fs _ f _ [] m (by simp) hrun⟩
  rw [get_contract_files_eq_rootFiles, List.count_append]
  by_cases hrr : r1 = r2
  · subst hrr
    rw [h1] at h2
    injection h2 with ht
    subst ht
    have hds : ds1 ≠ ds2 := fun h => hne (by rw [h])
    have hcount := count_walkCollect_two directories_to_exclude r1 t1 f ds1 ds2
      hds hm1 hx1 hm2 hx2 hext
    rcases treeAt_root fs r1 t1 h1 with hr | hr
    · rw [hr] at h1 hcount
      rw [rootFiles_eq fs "contracts" t1 h1]
      omega
    · rw [hr] at h1 hcount
      rw [rootFiles_eq fs "src" t1 h1]
      omega
  · have hone1 := count_walkCollect_one directories_to_exclude r1 t1 f ds1 hm1 hx1 hext
    have hone2 := count_walkCollect_one directories_to_exclude r2 t2 f ds2 hm2 hx2 hext
    rcases treeAt_root fs r1 t1 h1 with hr1 | hr1 <;>
      rcases treeAt_root fs r2 t2 h2 with hr2 | hr2
    · exact absurd (hr1.trans hr2.symm) hrr
    · rw [hr1] at h1 hone1
      rw [hr2] at h2 hone2
      rw [rootFiles_eq fs "contracts" t1 h1, rootFiles_eq fs "src" t2 h2]
      omega
    · rw [hr1] at h1 hone1
      rw [hr2] at h2 hone2
      rw [rootFiles_eq fs "src" t1 h1, rootFiles_eq fs "contracts" t2 h2]
      omega
    · exact absurd (hr1.trans hr2.symm) hrr

/-- Witness for C7 at a concrete filesystem with `A.sol` both at the top
of `./contracts` and in its subdirectory `core`. -/
theorem claim7_duplicate_basenames_witness :
    2 ≤ List.count "A.sol" (get_contract_files fsC7) ∧
    assocFind "A.sol"
        [("A.sol", Json.obj [("bytecode", Json.str "0xdeadbeef"),
          ("abi", Json.arr [exAbiEntry])])]
      = some (Json.obj [("bytecode", Json.str "0xdeadbeef"),
          ("abi", Json.arr [exAbiEntry])]) ∧
    List.count "A.sol"
        (List.map Prod.fst [("A.sol", Json.obj [("bytecode", Json.str "0xdeadbeef"),
          ("abi", Json.arr [exAbiEntry])])]) ≤ 1 :=
  claim7_duplicate_basenames fsC7 "contracts" "contracts"
    (DirTree.node ["A.sol"] (SubList.cons "core" (DirTree.node ["A.sol"] SubList.nil) SubList.nil))
    (DirTree.node ["A.sol"] (SubList.cons "core" (DirTree.node ["A.sol"] SubList.nil) SubList.nil))
    [] ["core"] "A.sol" (Json.str "0xdeadbeef") (Json.arr [exAbiEntry])
    [("A.sol", Json.obj [("bytecode", Json.str "0xdeadbeef"), ("abi", Json.arr [exAbiEntry])])]
    rfl (by decide) rfl rfl (by decide) rfl (by decide) rfl rfl rfl rfl

end Release
